import Mathlib

/-!
# Verification of the Alg-Trust expression rewrite engine

Shallow embedding of the repository's core: the tokenizer (`src/tokenizer.py`),
the bracket/rewrite algebra and breadth-first graph builder
(`src/graph_builder2.py`), and the policy/learner/walker layer
(`src/policies.py`, `src/learner.py`, `src/learner_integration.py`).

Numeric model: the Python code computes on `float` and renders results back to
token strings (integral results without a decimal point).  We model numbers as
exact rationals in a canonical normal form (`Val`), so that value equality of
tokens matches the string-equality dedup of the source on the inputs the
claims exercise.  `^` is modelled for integer exponents (the only case the
claims use); a non-integer exponent makes the operation fail, like the other
locally-caught arithmetic failures.

`gcdF` is a fuel-driven Euclidean gcd so that every definition here reduces in
the kernel (no well-founded `Nat.gcd`).
-/

namespace AlgTrust

/-- Euclidean gcd on `Nat`, driven by structural fuel (fuel `a+1` always
suffices since the first argument strictly decreases). -/
def gcdF : Nat → Nat → Nat → Nat
  | 0, _, b => b
  | _ + 1, 0, b => b
  | f + 1, a + 1, b => gcdF f (b % (a + 1)) (a + 1)

/-- Kernel-reducible gcd. -/
def gcdN (a b : Nat) : Nat := gcdF (a + 1) a b

/-- Exact rational value in normal form (`den > 0`, reduced; zero is `0/1`).
Models the Python `float` values carried in numeric tokens. -/
structure Val where
  num : Int
  den : Nat
  deriving DecidableEq, Repr

/-- Normalise a fraction with a `Nat` denominator. -/
def Val.norm (n : Int) (d : Nat) : Val :=
  if d = 0 then ⟨0, 0⟩
  else
    let g := gcdN n.natAbs d
    if g = 0 then ⟨n, d⟩ else ⟨n / (g : Int), d / g⟩

/-- Normalise a fraction with an `Int` denominator (sign moved to the top). -/
def Val.normI (n d : Int) : Val :=
  if d < 0 then Val.norm (-n) (-d).toNat else Val.norm n d.toNat

/-- Integer as a `Val`. -/
def nv (n : Int) : Val := ⟨n, 1⟩

def Val.addV (a b : Val) : Val :=
  Val.norm (a.num * (b.den : Int) + b.num * (a.den : Int)) (a.den * b.den)

def Val.subV (a b : Val) : Val :=
  Val.norm (a.num * (b.den : Int) - b.num * (a.den : Int)) (a.den * b.den)

def Val.mulV (a b : Val) : Val := Val.norm (a.num * b.num) (a.den * b.den)

def Val.divV (a b : Val) : Val :=
  Val.normI (a.num * (b.den : Int)) ((a.den : Int) * b.num)

def Val.npowV (a : Val) : Nat → Val
  | 0 => ⟨1, 1⟩
  | n + 1 => (a.npowV n).mulV a

/-- Multiplicative inverse (of a nonzero value). -/
def Val.invV (a : Val) : Val := Val.normI (a.den : Int) a.num

/-- The five operators `+ - * / ^` of the token language. -/
inductive Op
  | add | sub | mul | div | pow
  deriving DecidableEq, Repr

/-- The three paired bracket families.

Modelled from the spec: `graph_builder2.py` (line 10) imports
`OPEN_BRACKETS`, `CLOSE_BRACKETS`, `BRACKET_PAIRS` from the tokenizer, but
`src/tokenizer.py` does not define them; the spec (§3, §4.1) fixes them as
"three paired bracket families".  A bracket token is an `Op`-free delimiter
`(`/`)`, `[`/`]`, `{`/`}`; `BRACKET_PAIRS` maps each open bracket to the close
bracket of the same family, which the `Brk` index encodes. -/
inductive Brk
  | paren | square | curly
  deriving DecidableEq, Repr

/-- A token of the rewrite engine: a numeric literal, an operator, or an open
or close bracket of one of the three families (`src/graph_builder2.py`'s view
of the token strings). -/
inductive Token
  | num (v : Val)
  | op (o : Op)
  | lbr (b : Brk)
  | rbr (b : Brk)
  deriving DecidableEq, Repr

open Token

/-- `token in OPEN_BRACKETS`. -/
def isOpenB : Token → Bool
  | lbr _ => true
  | _ => false

/-- `token in CLOSE_BRACKETS`. -/
def isCloseB : Token → Bool
  | rbr _ => true
  | _ => false

/-- `token in OPEN_BRACKETS + CLOSE_BRACKETS`. -/
def isBracket (t : Token) : Bool := isOpenB t || isCloseB t

/-- `token in ['+', '-', '*', '/', '^']`. -/
def isOp : Token → Bool
  | op _ => true
  | _ => false

/-- Numeric payload of a token; `float(t)` raises on anything else
(modelled as `none`). -/
def toNum : Token → Option Val
  | num v => some v
  | _ => none

/-!
## The tokenizer shipped in `src/tokenizer.py` (`tokenize`)

Characters are consumed exactly as the Python loop does: `(`/`)` and the
operators `+ * / ^` are single-character tokens, `-` is glued to the following
digits when it starts the input or follows an operator or `(`, digit/`.` runs
form number tokens, and any other character — including `{`, `}`, `[`, `]` —
raises `ValueError` (modelled as `none`).  Tokens are the raw character runs
(`List Char`); no numeric interpretation is needed for the tokenizer claims.
-/

/-- Characters the Python tokenizer treats as part of a number
(`expression[j].isdigit() or expression[j] == '.'`). -/
def isNumChar (c : Char) : Bool := c.isDigit || c = '.'

/-- `tokens[-1] in ['+', '-', '*', '/', '^', '(']` — the check deciding
whether `-` begins a negative literal. -/
def lastIsOpOrOpen (acc : List (List Char)) : Bool :=
  match acc.getLast? with
  | some [c] => c = '+' || c = '-' || c = '*' || c = '/' || c = '^' || c = '('
  | _ => false

/-- Main loop of `tokenize` (`src/tokenizer.py` lines 30-73).  `acc` is the
list of tokens built so far; `acc = []` iff `i == 0` in the source, since
every branch emits a token.  The structural `fuel` argument only drives
termination: every branch consumes at least one character, so the initial
fuel `length + 1` is never exhausted. -/
def tokenizeGo : Nat → List Char → List (List Char) → Option (List (List Char))
  | 0, _, _ => none
  | _ + 1, [], acc => some acc
  | fuel + 1, c :: rest, acc =>
    if c = '(' || c = ')' then
      tokenizeGo fuel rest (acc ++ [[c]])
    else if c = '+' || c = '*' || c = '/' || c = '^' then
      tokenizeGo fuel rest (acc ++ [[c]])
    else if c = '-' then
      if acc.isEmpty || lastIsOpOrOpen acc then
        tokenizeGo fuel (rest.dropWhile isNumChar)
          (acc ++ [c :: rest.takeWhile isNumChar])
      else
        tokenizeGo fuel rest (acc ++ [['-']])
    else if isNumChar c then
      tokenizeGo fuel (rest.dropWhile isNumChar)
        (acc ++ [c :: rest.takeWhile isNumChar])
    else
      none

/-- `tokenize` from `src/tokenizer.py`: strip spaces, then scan.
`none` models the `ValueError("Invalid character in expression: …")`. -/
def tokenize (expression : List Char) : Option (List (List Char)) :=
  let cs := expression.filter (· ≠ ' ')
  tokenizeGo (cs.length + 1) cs []

/-!
## Bracket and term analysis (`src/graph_builder2.py`)
-/

/-- Stack pass of `find_bracket_groups(tokens, outermost_only=False)`
(lines 77-87): every matched pair `(start, end)` of the same family, found by
a stack; a close bracket always pops, but only a family match is recorded. -/
def fbgAllGo : List Token → Nat → List (Brk × Nat) → List (Nat × Nat) →
    List (Nat × Nat)
  | [], _, _, groups => groups
  | t :: rest, i, stack, groups =>
    match t with
    | lbr b => fbgAllGo rest (i + 1) ((b, i) :: stack) groups
    | rbr b =>
      match stack with
      | [] => fbgAllGo rest (i + 1) [] groups
      | (ob, s) :: st =>
        if ob = b then fbgAllGo rest (i + 1) st (groups ++ [(s, i)])
        else fbgAllGo rest (i + 1) st groups
    | _ => fbgAllGo rest (i + 1) stack groups

/-- The sort key `(start, -(end - start))` of line 89: earlier start first;
at equal starts the wider group first. -/
def groupKeyLe (a b : Nat × Nat) : Bool :=
  a.1 < b.1 || (a.1 = b.1 && b.2 ≤ a.2)

def insertGroup (a : Nat × Nat) : List (Nat × Nat) → List (Nat × Nat)
  | [] => [a]
  | b :: rest => if groupKeyLe a b then a :: b :: rest else b :: insertGroup a rest

def sortGroups : List (Nat × Nat) → List (Nat × Nat)
  | [] => []
  | a :: rest => insertGroup a (sortGroups rest)

/-- Forward depth scan shared by the `while j < len and depth > 0` loops:
number of tokens consumed until the depth counter returns to zero. -/
def scanFwdCount (depth : Int) : List Token → Nat
  | [] => 0
  | t :: r =>
    let d : Int := if isOpenB t then depth + 1 else if isCloseB t then depth - 1 else depth
    1 + (if d = 0 then 0 else scanFwdCount d r)

/-- Backward depth scan (`while j >= 0 and depth > 0`, with the roles of open
and close swapped), run on the reversed prefix. -/
def scanBwdCount (depth : Int) : List Token → Nat
  | [] => 0
  | t :: r =>
    let d : Int := if isCloseB t then depth + 1 else if isOpenB t then depth - 1 else depth
    1 + (if d = 0 then 0 else scanBwdCount d r)

/-- Outermost-only pass of `find_bracket_groups` (lines 57-75), fuel-driven:
at an open bracket, scan for the matching close and jump past it. -/
def fbgOuterGo : Nat → List Token → Nat → List (Nat × Nat)
  | 0, _, _ => []
  | _ + 1, [], _ => []
  | fuel + 1, t :: rest, i =>
    if isOpenB t then
      let consumed := scanFwdCount 1 rest
      (i, i + consumed) :: fbgOuterGo fuel (rest.drop consumed) (i + consumed + 1)
    else
      fbgOuterGo fuel rest (i + 1)

/-- `find_bracket_groups` from `src/graph_builder2.py` lines 45-91. -/
def find_bracket_groups (tokens : List Token) (outermostOnly : Bool) :
    List (Nat × Nat) :=
  if outermostOnly then fbgOuterGo (tokens.length + 1) tokens 0
  else sortGroups (fbgAllGo tokens 0 [] [])

/-- `get_bracket_content`: `tokens[start + 1 : end]`. -/
def get_bracket_content (tokens : List Token) (s e : Nat) : List Token :=
  (tokens.drop (s + 1)).take (e - (s + 1))

/-!
## `simplify_brackets` (lines 526-543)

The source runs an outer `while changed` loop around an inner left-to-right
scan; the scan collapses `open, operand, matching-close` in place and
continues from the same position.  `innerPass` is that inner scan (the
unscanned prefix is maintained by the recursion); `outerLoop` is the
`while changed` loop, fuelled by the token count since every changed pass
removes at least two tokens.
-/

/-- One inner scan of `simplify_brackets`: collapse every
`open, operand, matching close` triple found scanning left to right, and
report whether anything changed.  After a collapse the source re-examines the
same position, whose token is now the collapsed operand; that operand is not
an open bracket (the collapse condition), so the re-examination steps over it
and the scan continues on `rest`. -/
def innerPass : List Token → List Token × Bool
  | lbr b :: x :: r :: rest =>
    if !isBracket x && !isOp x && r = rbr b then
      (x :: (innerPass rest).1, true)
    else
      (lbr b :: (innerPass (x :: r :: rest)).1, (innerPass (x :: r :: rest)).2)
  | t :: rest => (t :: (innerPass rest).1, (innerPass rest).2)
  | [] => ([], false)

/-- The `while changed` loop of `simplify_brackets`. -/
def outerLoop : Nat → List Token → List Token
  | 0, t => t
  | fuel + 1, t =>
    match innerPass t with
    | (t2, true) => outerLoop fuel t2
    | (t2, false) => t2

/-- `simplify_brackets` from `src/graph_builder2.py` lines 526-543: remove
brackets that contain only a single number, to a fixed point. -/
def simplify_brackets (tokens : List Token) : List Token :=
  outerLoop (tokens.length + 1) tokens

/-!
## Evaluate discovery and execution
-/

/-- Loop of `find_evaluatable_operations` (lines 477-493).  `i` is the index
of the head of the remaining suffix inside `tokens`.  Python's
`tokens[i - 1]` wraps to the last element at `i = 0`, and `tokens[i + 1]`
raises `IndexError` when the operator is the last token (modelled as
`none`). -/
def feoGo (tokens : List Token) : Nat → List Token → Option (List (Nat × Op))
  | _, [] => some []
  | i, t :: rest =>
    match t with
    | op o =>
      match rest.head? with
      | none => none
      | some r =>
        match (if i = 0 then tokens.getLast? else tokens.get? (i - 1)) with
        | none => none
        | some l =>
          if !isBracket l && !isBracket r then
            (feoGo tokens (i + 1) rest).map (fun acc => (i, o) :: acc)
          else
            feoGo tokens (i + 1) rest
    | _ => feoGo tokens (i + 1) rest

/-- `find_evaluatable_operations`: operator positions whose both neighbours
are not brackets. -/
def find_evaluatable_operations (tokens : List Token) :
    Option (List (Nat × Op)) :=
  feoGo tokens 0 tokens

/-- The five elementary operations of `perform_operation` (lines 501-514) in
exact arithmetic.  `/` by zero is the `ValueError("Division by zero")`.
Python computes `**` on floats; the claims only exercise integer exponents,
which we model exactly (`0` to a negative power is Python's
`ZeroDivisionError`); a non-integer exponent is modelled as a local failure
like the other caught exceptions. -/
def evalOp (o : Op) (l r : Val) : Option Val :=
  match o with
  | .add => some (l.addV r)
  | .sub => some (l.subV r)
  | .mul => some (l.mulV r)
  | .div => if r.num = 0 then none else some (l.divV r)
  | .pow =>
    if r.den = 1 then
      if 0 ≤ r.num then some (l.npowV r.num.toNat)
      else if l.num = 0 then none else some (l.invV.npowV (-r.num).toNat)
    else none

/-- `perform_operation` from lines 496-523: evaluate the operator at
`opIndex` between its two neighbours, splice the result in, and
canonicalise.  `none` models any raised exception (bad index, non-numeric
neighbour, division by zero).  Integral results need no special rendering in
the exact model. -/
def perform_operation (tokens : List Token) (opIndex : Nat) (o : Op) :
    Option (List Token) := do
  let left ← if opIndex = 0 then tokens.getLast? else tokens.get? (opIndex - 1)
  let right ← tokens.get? (opIndex + 1)
  let l ← toNum left
  let r ← toNum right
  let res ← evalOp o l r
  let before := if opIndex = 0 then tokens.dropLast else tokens.take (opIndex - 1)
  return simplify_brackets (before ++ [num res] ++ tokens.drop (opIndex + 2))

/-- Loop of `is_same_operator_expression` (lines 557-579). -/
def isameGo : List Token → Option Op → Bool × Option Op
  | [], found => if found.isSome then (true, found) else (false, none)
  | t :: rest, found =>
    if isBracket t then (false, none)
    else
      match t with
      | op o =>
        match found with
        | none => isameGo rest (some o)
        | some f => if o = f then isameGo rest found else (false, none)
      | _ => isameGo rest found

/-- `is_same_operator_expression`: the whole sequence is bracket-free and
mentions exactly one distinct operator. -/
def is_same_operator_expression (tokens : List Token) : Bool × Option Op :=
  isameGo tokens none

/-- Left-to-right fold of `compute_same_operator_result` (lines 591-604),
with the same per-operator arithmetic and failures as `perform_operation`. -/
def foldVals (o : Op) (acc : Val) : List Val → Option Val
  | [] => some acc
  | v :: rest => (evalOp o acc v).bind (fun r => foldVals o r rest)

/-- The list comprehension `[float(t) for t in …]`: every entry must parse
as a number, else the comprehension raises. -/
def collectNums : List Token → Option (List Val)
  | [] => some []
  | t :: rest => (toNum t).bind (fun v => (collectNums rest).map (v :: ·))

/-- `compute_same_operator_result` from lines 582-608: collect every token
different from the operator as a number (`float` failures are `none`), fold
them left to right, and return the resulting token.  With no numbers the
source returns `tokens[0]` (or `'0'` for an empty list). -/
def compute_same_operator_result (tokens : List Token) (o : Op) :
    Option Token := do
  let numbers ← collectNums (tokens.filter (fun t => t ≠ Token.op o))
  match numbers with
  | [] =>
    match tokens.head? with
    | some t => some t
    | none => some (num (nv 0))
  | v :: rest =>
    let res ← foldVals o v rest
    return num res

/-!
## Dropping and distributing brackets
-/

/-- `drop_brackets` from lines 179-192: splice the bracket's contents into
the surrounding sequence. -/
def drop_brackets (tokens : List Token) (bracketStart bracketEnd : Nat) :
    List Token :=
  tokens.take bracketStart ++ get_bracket_content tokens bracketStart bracketEnd
    ++ tokens.drop (bracketEnd + 1)

/-- Which side of the bracket the outer operator is on. -/
inductive Side
  | left | right
  deriving DecidableEq, Repr

/-- Loop of `parse_bracket_terms` (lines 119-176): split a bracket interior
into `(connecting sign, term)` pairs at depth-0 separators.  `depth` is an
`Int` exactly as in Python (it may go negative on unbalanced input). -/
def pbtGo (splitAll : Bool) :
    List Token → Token → List Token → Int → List (Token × List Token)
  | [], sign, current, _ =>
    if current.isEmpty then [] else [(sign, current)]
  | t :: rest, sign, current, depth =>
    if isOpenB t then pbtGo splitAll rest sign (current ++ [t]) (depth + 1)
    else if isCloseB t then pbtGo splitAll rest sign (current ++ [t]) (depth - 1)
    else if (t = op .add || t = op .sub ||
        (splitAll && (t = op .mul || t = op .div || t = op .pow)))
        && depth = 0 && !current.isEmpty then
      (sign, current) ::
        pbtGo splitAll rest (if splitAll then op .add else t) [] depth
    else
      pbtGo splitAll rest sign (current ++ [t]) depth

/-- `parse_bracket_terms` from lines 119-176. -/
def parse_bracket_terms (tokens : List Token) (splitAll : Bool := false) :
    List (Token × List Token) :=
  pbtGo splitAll tokens (op .add) [] 0

/-- Wrap a multi-token (or bracket-leading) term in fresh parentheses —
the `['('] + term_tokens + [')']` re-wrapping of `distribute_bracket`. -/
def wrapTerm (term : List Token) : List Token :=
  if term.length > 1 || (match term.head? with
      | some t => isOpenB t
      | none => false) then
    [lbr .paren] ++ term ++ [rbr .paren]
  else term

/-- Body builder of `distribute_bracket` (lines 313-340): apply the outer
operator to every term, keeping each term's connecting sign.  `first` marks
`i = 0` (whose dead `sign == '-'` adjustment is mirrored). -/
def distInner (opSide : Side) (outerOperator : Token) (operand : List Token) :
    Bool → List (Token × List Token) → List Token
  | _, [] => []
  | first, (sign, term) :: rest =>
    let term :=
      if first && sign = op .sub &&
          (match term.head? with
           | some t => t ≠ op .add && t ≠ op .sub
           | none => false) then
        op .sub :: term
      else term
    let piece :=
      match opSide with
      | .right => wrapTerm term ++ [outerOperator] ++ operand
      | .left => operand ++ [outerOperator] ++ wrapTerm term
    (if first then [] else [sign]) ++ piece ++
      distInner opSide outerOperator operand false rest

/-- `distribute_bracket` from lines 279-386.  Returns `none` both for the
source's explicit `None` (a single-term bracket) and for any raised
exception (an out-of-range index), which every caller treats alike. -/
def distribute_bracket (tokens : List Token) (bracketStart bracketEnd : Nat)
    (opSide : Side) (opIndex : Nat) (operand : List Token) :
    Option (List Token) := do
  let inner := get_bracket_content tokens bracketStart bracketEnd
  let outerOperator ← tokens.get? opIndex
  let terms := parse_bracket_terms inner
  if terms.length ≤ 1 then none
  else
    let distributed :=
      [lbr .paren] ++ distInner opSide outerOperator operand true terms
        ++ [rbr .paren]
    match opSide with
    | .right => do
      let before := tokens.take bracketStart
      let afterOperandIdx := opIndex + 1
      let t ← tokens.get? afterOperandIdx
      let after :=
        if isOpenB t then
          tokens.drop (afterOperandIdx + 1 + scanFwdCount 1 (tokens.drop (afterOperandIdx + 1)))
        else tokens.drop (afterOperandIdx + 1)
      return before ++ distributed ++ after
    | .left => do
      let beforeOperandIdx := opIndex - 1
      let t ← tokens.get? beforeOperandIdx
      let before :=
        if isCloseB t then
          tokens.take (beforeOperandIdx - scanBwdCount 1 (tokens.take beforeOperandIdx).reverse)
        else tokens.take beforeOperandIdx
      let after := tokens.drop (bracketEnd + 1)
      return before ++ distributed ++ after

/-- One candidate of `find_distributable_brackets` (lines 389-474). -/
structure DistInfo where
  bracketStart : Nat
  bracketEnd : Nat
  opSide : Side
  opIndex : Nat
  operator : Op
  operand : List Token
  deriving DecidableEq, Repr

/-- Right-hand candidate for one bracket group (lines 402-437): an operator
directly after the close bracket, with its operand; skipped when a `/` has a
bracket-group divisor (`(a+b)/(c+d)` — "tricky, skip for now"). -/
def rightCandidate (tokens : List Token) (g : Nat × Nat) : Option DistInfo :=
  match tokens.get? (g.2 + 1) with
  | some (op o) =>
    if g.2 + 1 + 1 < tokens.length then
      match tokens.get? (g.2 + 2) with
      | some t =>
        if o = .div && isOpenB t then none
        else
          some ⟨g.1, g.2, .right, g.2 + 1, o,
            if isOpenB t then
              (tokens.drop (g.2 + 2)).take
                (1 + scanFwdCount 1 (tokens.drop (g.2 + 2 + 1)))
            else [t]⟩
      | none => none
    else none
  | _ => none

/-- Left-hand candidate for one bracket group (lines 439-472): an operator
directly before the open bracket; every `/` is skipped (`a/(b+c)` cannot
distribute). -/
def leftCandidate (tokens : List Token) (g : Nat × Nat) : Option DistInfo :=
  if g.1 = 0 then none
  else
    match tokens.get? (g.1 - 1) with
    | some (op o) =>
      if g.1 - 1 = 0 then none
      else
        match tokens.get? (g.1 - 2) with
        | some t =>
          if o = .div then none
          else
            some ⟨g.1, g.2, .left, g.1 - 1, o,
              if isCloseB t then
                (tokens.take (g.1 - 2 + 1)).drop
                  ((g.1 - 2) - scanBwdCount 1 (tokens.take (g.1 - 2)).reverse)
              else [t]⟩
        | none => none
    | _ => none

/-- `find_distributable_brackets` from lines 389-474: for every bracket
group, the right-hand candidate then the left-hand candidate. -/
def find_distributable_brackets (tokens : List Token)
    (includeNested : Bool := true) : List DistInfo :=
  (find_bracket_groups tokens (!includeNested)).flatMap
    (fun g => (rightCandidate tokens g).toList ++ (leftCandidate tokens g).toList)

/-!
## Action discovery (`ExpressionGraph2._find_all_actions`, lines 708-784)
-/

/-- The action kinds `'evaluate' | 'distribute' | 'drop_brackets'`. -/
inductive ActKind
  | evaluate | distribute | dropBrackets
  deriving DecidableEq, Repr

/-- The human-readable description strings, kept structured: `"Compute L o R"`,
`"Distribute (inner) o operand"`, `"Drop brackets: (inner)"`, and the fast
path's `"Compute all 'o' operations"`. -/
inductive ADesc
  | computeDesc (left : Token) (o : Op) (right : Token)
  | distributeDesc (inner : List Token) (o : Op) (operand : List Token)
  | dropDesc (inner : List Token)
  | computeAllDesc (o : Op)
  deriving DecidableEq, Repr

/-- An action dict of `_find_all_actions`:
`{'type', 'description', 'result_tokens'}`. -/
structure GAction where
  actionType : ActKind
  description : ADesc
  resultTokens : List Token
  deriving DecidableEq, Repr

/-- The `add_action` helper (lines 713-722): drop the action when an earlier
action already produced the same resulting sequence (`seen_results` holds
exactly the results of the actions collected so far). -/
def addAction (acc : List GAction) (ty : ActKind) (desc : ADesc)
    (result : List Token) : List GAction :=
  if acc.any (fun a => a.resultTokens = result) then acc
  else acc ++ [⟨ty, desc, result⟩]

/-- One distribute candidate of `_find_all_actions` (lines 726-748): a
successful, nonempty distribution is canonicalised and collected; failures
are skipped. -/
def distActionStep (tokens : List Token) (acc : List GAction) (dist : DistInfo) :
    List GAction :=
  let inner := get_bracket_content tokens dist.bracketStart dist.bracketEnd
  match distribute_bracket tokens dist.bracketStart dist.bracketEnd
      dist.opSide dist.opIndex dist.operand with
  | some result =>
    if result.isEmpty then acc
    else addAction acc .distribute
      (.distributeDesc inner dist.operator dist.operand)
      (simplify_brackets result)
  | none => acc

/-- One drop-brackets action of `_find_all_actions` (lines 758-769). -/
def dropActionStep (tokens : List Token) (acc : List GAction) (g : Nat × Nat) :
    List GAction :=
  addAction acc .dropBrackets (.dropDesc (get_bracket_content tokens g.1 g.2))
    (simplify_brackets (drop_brackets tokens g.1 g.2))

/-- One evaluate action of `_find_all_actions` (lines 771-782): collected
only when `perform_operation` succeeds (a raised exception — e.g. division by
zero — skips the candidate). -/
def evalActionStep (tokens : List Token) (acc : List GAction) (io : Nat × Op) :
    List GAction :=
  match perform_operation tokens io.1 io.2 with
  | some result =>
    match (if io.1 = 0 then tokens.getLast? else tokens.get? (io.1 - 1)),
        tokens.get? (io.1 + 1) with
    | some l, some r => addAction acc .evaluate (.computeDesc l io.2 r) result
    | _, _ => acc
  | none => acc

/-- `_find_all_actions`: distribute candidates, then drop-brackets for every
group, then evaluatable operations; each single action that fails is skipped,
result-deduplicated by `addAction`.  `none` models the uncaught `IndexError`
of `find_evaluatable_operations` on an operator-final sequence. -/
def find_all_actions (tokens : List Token) : Option (List GAction) := do
  let acc := (find_distributable_brackets tokens true).foldl
    (distActionStep tokens) []
  let acc := (find_bracket_groups tokens false).foldl
    (dropActionStep tokens) acc
  let ops ← find_evaluatable_operations tokens
  let acc := ops.foldl (evalActionStep tokens) acc
  return acc

/-!
## Graph builder (`ExpressionGraph2`, lines 611-706)

`Node.id` is `str(uuid.uuid4())[:8]` — a draw from an external random source,
independent of the node's content.  We model the uuid source as an oracle
`supply : Nat → Nat` giving the id of the `k`-th node created; nothing else
about the draw is assumed.  `_build_graph` starts by tokenizing and
validating the input string; the build here starts from that validated token
sequence.  The structural `fuel` bounds the BFS (the state space can be
infinite without a node ceiling); `none` models a build that crashes or does
not finish within `fuel` dequeues.
-/

/-- A graph node (`Node.__init__`, lines 19-25): fresh id, token sequence,
terminal flag for length-1 sequences and, then, the parsed numeric result.
Construction fails (Python's `float` raising) on a length-1 sequence whose
token is not numeric. -/
structure GNode where
  id : Nat
  tokens : List Token
  isFinal : Bool
  result : Option Val
  parentId : Option Nat
  deriving DecidableEq, Repr

/-- The guarded `Node` constructor. -/
def mkNodeChecked (id : Nat) (tokens : List Token) (parentId : Option Nat) :
    Option GNode :=
  if tokens.length = 1 then
    match tokens.head? with
    | some (num v) => some ⟨id, tokens, true, some v, parentId⟩
    | _ => none
  else some ⟨id, tokens, false, none, parentId⟩

/-- An edge (`Edge.__init__`, lines 34-39). -/
structure GEdge where
  fromId : Nat
  toId : Nat
  actionType : ActKind
  description : ADesc
  deriving DecidableEq, Repr

/-- The builder's state: node and edge collections, the
`seen_expressions` canonical-sequence → node-id map (an insertion-ordered
association list, like the Python dict), the root id, the node ceiling and
the truncation flag. -/
structure BState where
  nodes : List GNode
  edges : List GEdge
  seen : List (List Token × Nat)
  rootId : Nat
  maxNodes : Option Nat
  truncated : Bool
  deriving DecidableEq, Repr

/-- `new_expr in self.seen_expressions` / `self.seen_expressions[new_expr]`. -/
def seenLookup (seen : List (List Token × Nat)) (key : List Token) :
    Option Nat :=
  (seen.find? (fun p => p.1 = key)).map (·.2)

/-- `self.max_nodes and len(self.nodes) >= self.max_nodes` (line 642) —
`None` and `0` are both falsy. -/
def ceilingHit (st : BState) : Bool :=
  match st.maxNodes with
  | some n => decide (n ≠ 0) && decide (n ≤ st.nodes.length)
  | none => false

/-- Process one discovered action from the node `curId` (lines 682-706): on a
seen canonical sequence only an edge is recorded; otherwise a node is
created, registered and enqueued.  A failing node construction skips just
that action. -/
def stepAction (supply : Nat → Nat) (curId : Nat)
    (p : BState × List GNode) (ty : ActKind) (desc : ADesc)
    (newTokens : List Token) : BState × List GNode :=
  let st := p.1
  match seenLookup st.seen newTokens with
  | some existingId =>
    ({ st with edges := st.edges ++ [⟨curId, existingId, ty, desc⟩] }, p.2)
  | none =>
    match mkNodeChecked (supply st.nodes.length) newTokens (some curId) with
    | none => p
    | some node =>
      ({ st with
          nodes := st.nodes ++ [node],
          seen := st.seen ++ [(newTokens, node.id)],
          edges := st.edges ++ [⟨curId, node.id, ty, desc⟩] },
        p.2 ++ [node])

/-- The same-operator fast path (lines 651-678): when the whole sequence is a
one-operator, bracket-free chain, fold it to its terminal value in one step
and record a single evaluate edge.  `none` means the `try` block fell through
to normal processing (a failing fold, or a failing node construction). -/
def fastStep (supply : Nat → Nat) (st : BState) (cur : GNode) :
    Option (BState × List GNode) :=
  match is_same_operator_expression cur.tokens with
  | (true, some o) =>
    match compute_same_operator_result cur.tokens o with
    | some resTok =>
      match seenLookup st.seen [resTok] with
      | some existingId =>
        some ({ st with edges := st.edges ++
          [⟨cur.id, existingId, .evaluate, .computeAllDesc o⟩] }, [])
      | none =>
        match mkNodeChecked (supply st.nodes.length) [resTok] (some cur.id) with
        | none => none
        | some node =>
          some ({ st with
              nodes := st.nodes ++ [node],
              seen := st.seen ++ [([resTok], node.id)],
              edges := st.edges ++
                [⟨cur.id, node.id, .evaluate, .computeAllDesc o⟩] },
            [node])
    | none => none
  | _ => none

/-- The BFS loop of `_build_graph` (lines 640-706): ceiling check at each
dequeue, terminal states never expanded, the same-operator fast path (falling
back to full discovery when it fails), then the full action set.  Returns the
final state plus whatever remained on the frontier queue. -/
def buildLoop (supply : Nat → Nat) :
    Nat → BState → List GNode → Option (BState × List GNode)
  | 0, _, _ => none
  | fuel + 1, st, queue =>
    match queue with
    | [] => some (st, [])
    | cur :: rest =>
      if ceilingHit st then some ({ st with truncated := true }, queue)
      else if cur.isFinal then buildLoop supply fuel st rest
      else
        match fastStep supply st cur with
        | some p => buildLoop supply fuel p.1 (rest ++ p.2)
        | none =>
          match find_all_actions cur.tokens with
          | none => none
          | some acts =>
            let p := acts.foldl
              (fun p a => stepAction supply cur.id p a.actionType a.description
                a.resultTokens)
              (st, [])
            buildLoop supply fuel p.1 (rest ++ p.2)

/-- `ExpressionGraph2.__init__` + `_build_graph` from the validated token
sequence: build the root node and run the BFS.  Returns the final builder
state and the remaining frontier. -/
def buildFull (supply : Nat → Nat) (fuel : Nat) (tokens : List Token)
    (maxNodes : Option Nat) : Option (BState × List GNode) :=
  match mkNodeChecked (supply 0) tokens none with
  | none => none
  | some root =>
    buildLoop supply fuel
      { nodes := [root], edges := [], seen := [(tokens, root.id)],
        rootId := root.id, maxNodes := maxNodes, truncated := false }
      [root]

/-- The finished graph object (dropping the frontier, which the source does
not retain). -/
def buildGraph (supply : Nat → Nat) (fuel : Nat) (tokens : List Token)
    (maxNodes : Option Nat) : Option BState :=
  (buildFull supply fuel tokens maxNodes).map (·.1)

/-!
## Policies and learners (`src/policies.py`, `src/learner.py`)

Only the policies used by the claims' learner profile (`expert`:
`highest_precedence_first`, `leftmost_first`, `brackets_first`,
`prefer_evaluate`) and the trivial `allow_all` are embedded.  A precedence
map is a total function `Op → Nat` (the four built-in maps have all five
keys; `dict.get(op, 0)` on a `None` operator yields `0`).
-/

/-- `policies.Action`: transient action descriptor
(`action_type`, `operator`, `operator_index`, `description`). -/
structure PAction where
  actionType : ActKind
  operator : Option Op
  operatorIndex : Option Nat
  description : ADesc
  deriving DecidableEq, Repr

/-- `extract_actions_from_tokens` from `src/learner_integration.py` lines
29-80: all evaluate positions (unscreened — `perform_operation` is not
consulted), then distribute candidates whose interior has a `+`/`-` token,
then one drop action per bracket group. -/
def extract_actions_from_tokens (tokens : List Token) :
    Option (List PAction) := do
  let ops ← find_evaluatable_operations tokens
  let evalActs ← ops.mapM (fun io => do
    let l ← if io.1 = 0 then tokens.getLast? else tokens.get? (io.1 - 1)
    let r ← tokens.get? (io.1 + 1)
    return PAction.mk .evaluate (some io.2) (some io.1) (.computeDesc l io.2 r))
  let distActs := (find_distributable_brackets tokens true).foldl
    (fun acc dist =>
      let inner := get_bracket_content tokens dist.bracketStart dist.bracketEnd
      if inner.any (fun t => t = op .add || t = op .sub) then
        acc ++ [PAction.mk .distribute (some dist.operator) (some dist.opIndex)
          (.distributeDesc inner dist.operator dist.operand)]
      else acc)
    []
  let dropActs := (find_bracket_groups tokens false).map (fun g =>
    PAction.mk .dropBrackets none (some g.1)
      (.dropDesc (get_bracket_content tokens g.1 g.2)))
  return evalActs ++ distActs ++ dropActs

/-- An operator → rank belief. -/
def PrecMap := Op → Nat

/-- `PRECEDENCE_BODMAS`: `^ > * / > + -`. -/
def PRECEDENCE_BODMAS : PrecMap := fun o =>
  match o with
  | .add | .sub => 1
  | .mul | .div => 2
  | .pow => 3

/-- `prec_map.get(a.operator, 0)` with a possibly-`None` operator. -/
def optPrec (m : PrecMap) : Option Op → Nat
  | some o => m o
  | none => 0

def get_evaluate_actions (actions : List PAction) : List PAction :=
  actions.filter (fun a => a.actionType = .evaluate)

/-- Is the operator at `idx` inside brackets — positive depth over the
prefix (`BracketsFirst._is_inside_brackets`)? -/
def isInsideBrackets (state : List Token) (idx : Nat) : Bool :=
  0 < (state.take idx).foldl
    (fun (d : Int) t => if isOpenB t then d + 1 else if isCloseB t then d - 1 else d) 0

/-- The policy names of the `expert` profile, plus `allow_all`. -/
inductive PolicyName
  | highestPrecedenceFirst
  | leftmostFirst
  | bracketsFirst
  | preferEvaluate
  | allowAll
  deriving DecidableEq, Repr

/-- `Policy.evaluate` for each embedded policy
(`src/policies.py` lines 228-257, 344-381, 492-548, 631-652, 682-697). -/
def policyEval (p : PolicyName) (state : List Token) (a : PAction)
    (avail : List PAction) (m : PrecMap) : Bool :=
  match p with
  | .highestPrecedenceFirst =>
    if a.actionType ≠ .evaluate then true
    else
      let evalActs := get_evaluate_actions avail
      if evalActs.isEmpty then true
      else
        let maxPrec := (evalActs.map (fun x => optPrec m x.operator)).foldl max 0
        optPrec m a.operator = maxPrec
  | .leftmostFirst =>
    if a.actionType ≠ .evaluate then true
    else
      match a.operatorIndex with
      | none => true
      | some myIdx =>
        let myPrec := optPrec m a.operator
        let samePrec := (get_evaluate_actions avail).filter
          (fun x => optPrec m x.operator = myPrec && x.operatorIndex.isSome)
        match samePrec.filterMap (·.operatorIndex) with
        | [] => true
        | i :: rest => myIdx = rest.foldl min i
  | .bracketsFirst =>
    match a.actionType with
    | .dropBrackets => false
    | .distribute =>
      !(get_evaluate_actions avail).any (fun x =>
        match x.operatorIndex with
        | some i => isInsideBrackets state i
        | none => false)
    | .evaluate =>
      match a.operatorIndex with
      | none => true
      | some myIdx =>
        let insideActs := (get_evaluate_actions avail).filter (fun x =>
          match x.operatorIndex with
          | some i => isInsideBrackets state i
          | none => false)
        if insideActs.isEmpty then true else isInsideBrackets state myIdx
  | .preferEvaluate =>
    if avail.any (fun x => x.actionType = .evaluate) && a.actionType = .distribute
    then false else true
  | .allowAll => true

/-- A learner: one precedence map plus a set of policies
(`learner.Learner`). -/
structure Learner where
  precMap : PrecMap
  policies : List PolicyName

/-- `Learner.is_valid`: the conjunction of all policies. -/
def Learner.is_valid (L : Learner) (state : List Token) (a : PAction)
    (avail : List PAction) : Bool :=
  L.policies.all (fun p => policyEval p state a avail L.precMap)

/-- `Learner.valid_actions`. -/
def Learner.valid_actions (L : Learner) (state : List Token)
    (avail : List PAction) : List PAction :=
  avail.filter (fun a => L.is_valid state a avail)

/-- The `expert` profile of `LEARNER_PROFILES` (`src/learner.py` lines
119-130): `bodmas` precedence with `highest_precedence_first`,
`leftmost_first`, `brackets_first`, `prefer_evaluate`. -/
def expertLearner : Learner :=
  ⟨PRECEDENCE_BODMAS,
   [.highestPrecedenceFirst, .leftmostFirst, .bracketsFirst, .preferEvaluate]⟩

/-!
## The graph walker (`LearnerGraphWalker`, `src/learner_integration.py`)

`walk_deterministic` re-derives actions for the current tokens at every step
(the pre-built graph stored on the walker is never consulted by it).
-/

/-- The distribute arm of `_execute_action` (lines 283-298): scan the
distributable candidates for the action's operator index and return the
first successful, nonempty distribution, canonicalised. -/
def findDistExec (tokens : List Token) (idx : Option Nat) :
    List DistInfo → Option (List Token)
  | [] => none
  | d :: rest =>
    if some d.opIndex = idx then
      (match distribute_bracket tokens d.bracketStart d.bracketEnd d.opSide
          d.opIndex d.operand with
      | some r =>
        if r.isEmpty then findDistExec tokens idx rest
        else some (simplify_brackets r)
      | none => findDistExec tokens idx rest)
    else findDistExec tokens idx rest

/-- The drop arm of `_execute_action` (lines 300-307). -/
def findDropExec (tokens : List Token) (idx : Option Nat) :
    List (Nat × Nat) → Option (List Token)
  | [] => none
  | g :: rest =>
    if some g.1 = idx then some (simplify_brackets (drop_brackets tokens g.1 g.2))
    else findDropExec tokens idx rest

/-- `LearnerGraphWalker._execute_action` (lines 268-312): run one chosen
action; any failure (including the evaluate arm's raised exception, caught by
the `try`) yields `None`. -/
def execute_action (tokens : List Token) (a : PAction) : Option (List Token) :=
  match a.actionType with
  | .evaluate =>
    match a.operatorIndex, a.operator with
    | some i, some o => perform_operation tokens i o
    | _, _ => none
  | .distribute => findDistExec tokens a.operatorIndex
      (find_distributable_brackets tokens true)
  | .dropBrackets => findDropExec tokens a.operatorIndex
      (find_bracket_groups tokens false)

/-- One recorded step of `walk_deterministic` (the final step carries
`is_final` and `result`). -/
structure Step where
  stateTokens : List Token
  allActions : List PAction
  validActions : List PAction
  chosenAction : Option PAction
  isFinal : Bool
  result : Option Val
  deriving DecidableEq, Repr

/-- Loop of `walk_deterministic` (lines 211-266), fuel-driven.  `none` models
a crash: either the uncaught `IndexError` of action extraction, the
`TypeError` of `len(tokens)` after `_execute_action` returned `None`
(`tokens` is then `None` when the post-loop `if len(tokens) == 1` runs), or a
non-numeric terminal token under `float` — as well as fuel exhaustion. -/
def walkGo (L : Learner) : Nat → List Token → List Step → Option (List Step)
  | 0, _, _ => none
  | fuel + 1, tokens, steps =>
    if tokens.length ≤ 1 then
      if tokens.length = 1 then
        match tokens.head? with
        | some (num v) => some (steps ++ [⟨tokens, [], [], none, true, some v⟩])
        | _ => none
      else some steps
    else
      match extract_actions_from_tokens tokens with
      | none => none
      | some allActions =>
        if allActions.isEmpty then some steps
        else
          let valid := L.valid_actions tokens allActions
          let steps := steps ++ [⟨tokens, allActions, valid, valid.head?, false, none⟩]
          match valid.head? with
          | none => some steps
          | some chosen =>
            match execute_action tokens chosen with
            | none => none
            | some tokens2 => walkGo L fuel tokens2 steps

/-- `LearnerGraphWalker.walk_deterministic` from the tokenized expression. -/
def walk_deterministic (L : Learner) (fuel : Nat) (tokens : List Token) :
    Option (List Step) :=
  walkGo L fuel tokens []

/-!
## Spec-side: strict left-to-right one-step evaluation (for the
same-operator fast-path claim)
-/

/-- Position and operator of the leftmost operator token. -/
def leftmostOpIdx : List Token → Nat → Option (Nat × Op)
  | [], _ => none
  | op o :: _, i => some (i, o)
  | _ :: rest, i => leftmostOpIdx rest (i + 1)

/-- Modelled from the spec claim: repeatedly evaluate the leftmost operator
pair, one step at a time, with `perform_operation`, until no operator
remains.  This is the reference evaluator the same-operator fast path is
compared against. -/
def stepwise_leftmost_eval : Nat → List Token → Option (List Token)
  | 0, _ => none
  | fuel + 1, t =>
    match leftmostOpIdx t 0 with
    | none => some t
    | some io => (perform_operation t io.1 io.2).bind (stepwise_leftmost_eval fuel)

/-!
## Claim-level predicates and concrete inputs
-/

/-- No position of the sequence carries an `open, operand, matching-close`
triple — no bracket pair of any family whose sole content is one operand
token. -/
def singletonBracketFree (t : List Token) : Bool :=
  (List.range t.length).all (fun i =>
    match t.get? i, t.get? (i+1), t.get? (i+2) with
    | some (lbr b), some x, some r =>
      !(!isBracket x && !isOp x && decide (r = rbr b))
    | _, _, _ => true)

/-- An action is clear of the forbidden shape: an evaluate action whose
operator is `/` and whose right operand is the number `0`. -/
def divZeroPred (a : GAction) : Bool :=
  match a.actionType, a.description with
  | .evaluate, .computeDesc _ .div (num v) => decide (v.num ≠ 0)
  | _, _ => true

/-- No action in the list is an evaluate action whose operator is `/` and
whose right operand is the number `0`. -/
def noDivZeroEvaluate (acts : List GAction) : Bool :=
  acts.all divZeroPred

/-- Failures while evaluating one candidate are local: every evaluatable
position whose `perform_operation` succeeds is still represented in the
discovered action set (up to result dedup, which keeps the first action with
the same resulting sequence). -/
def evalActionCovered (tokens : List Token) : Prop :=
  ∀ io ∈ (find_evaluatable_operations tokens).getD [],
    ∀ r, perform_operation tokens io.1 io.2 = some r →
      ∃ a ∈ (find_all_actions tokens).getD [], a.resultTokens = r

/-- Every `/` distribute candidate has the bracket as dividend (the
operator to the bracket's right) and a non-bracket divisor operand. -/
def divDistributeSound (tokens : List Token) : Prop :=
  ∀ d ∈ find_distributable_brackets tokens true, d.operator = .div →
    d.opSide = .right ∧
    ∃ t, tokens.get? (d.bracketEnd + 2) = some t ∧ isOpenB t = false

/-- Every bracket group followed by `/` and a non-bracket operand yields a
right-side `/` distribute candidate. -/
def divDistributeComplete (tokens : List Token) : Prop :=
  ∀ g ∈ find_bracket_groups tokens false, ∀ t,
    tokens.get? (g.2 + 1) = some (op .div) →
    g.2 + 1 + 1 < tokens.length →
    tokens.get? (g.2 + 2) = some t → isOpenB t = false →
    ∃ d ∈ find_distributable_brackets tokens true,
      d.bracketStart = g.1 ∧ d.bracketEnd = g.2 ∧ d.opSide = .right ∧
      d.operator = .div

/-- A bracket-free chain `v o w₁ o w₂ …` over one operator. -/
def chainTail (o : Op) : List Val → List Token
  | [] => []
  | w :: ws => op o :: num w :: chainTail o ws

/-- `chain v o vs` is the token sequence `v o vs₀ o vs₁ …`. -/
def chain (v : Val) (o : Op) (vs : List Val) : List Token :=
  num v :: chainTail o vs

/-- Tokens of `"(2+3)*5"`. -/
def tokensDist : List Token :=
  [lbr .paren, num (nv 2), op .add, num (nv 3), rbr .paren, op .mul, num (nv 5)]

/-- Tokens of `"1+1"`. -/
def tokensOnePlusOne : List Token := [num (nv 1), op .add, num (nv 1)]

/-- Tokens of `"(2+3)/(4+5)"`. -/
def tokensDivBrackets : List Token :=
  [lbr .paren, num (nv 2), op .add, num (nv 3), rbr .paren, op .div,
   lbr .paren, num (nv 4), op .add, num (nv 5), rbr .paren]

/-- Tokens of `"2+3*4"`. -/
def tokensPrec : List Token :=
  [num (nv 2), op .add, num (nv 3), op .mul, num (nv 4)]

/-- Tokens of `"5/0+1"`. -/
def tokensDivZero : List Token :=
  [num (nv 5), op .div, num (nv 0), op .add, num (nv 1)]

/-- Number of actions discovered on a token sequence (`0` when discovery
fails). -/
def actCount (tokens : List Token) : Nat :=
  ((find_all_actions tokens).getD []).length

def foldMax (f : GNode → Nat) (a : Nat) (l : List GNode) : Nat :=
  l.foldl (fun m n => max m (f n)) a

/-- The largest action fan-out over the graph's nodes (at least `1`,
covering the fast path's single successor). -/
def maxFanout (g : BState) : Nat :=
  foldMax (fun n => actCount n.tokens) 1 g.nodes

/-- Amended ceiling contract of the builder: the node count can overshoot the
ceiling `N` only by the fan-out of the final expansion, the build is
truncated whenever the frontier was not exhausted, and a truncated build
reached at least `N` nodes. -/
def C2Post (res : Option (BState × List GNode)) (N : Nat) : Prop :=
  ∀ g q, res = some (g, q) →
    g.nodes.length ≤ N - 1 + maxFanout g ∧
    (g.truncated = false → q = []) ∧
    (g.truncated = true → N ≤ g.nodes.length)

/-- Builder invariant behind the amended id claim: the `k`-th created node
carries the `k`-th uuid draw, `seen_expressions` mirrors the node collection
exactly, and canonical token sequences are never duplicated. -/
def IdInv (supply : Nat → Nat) (st : BState) : Prop :=
  st.nodes.map (·.id) = (List.range st.nodes.length).map supply ∧
  st.seen = st.nodes.map (fun n => (n.tokens, n.id)) ∧
  (st.nodes.map (·.tokens)).Nodup

/-- Amended id contract of the builder: within one build whose uuid draws do
not collide, node ids are pairwise distinct and node canonical token
sequences are pairwise distinct (so equal canonical text means the same node
and id, and distinct canonical text means distinct ids). -/
def C3Post (res : Option BState) : Prop :=
  ∀ g, res = some g →
    (g.nodes.map (·.id)).Nodup ∧ (g.nodes.map (·.tokens)).Nodup

end AlgTrust

namespace AlgTrust

open Token

/-!
## Lemmas about `simplify_brackets`
-/

lemma innerPass_cons_generic (t : Token) (rest : List Token)
    (hne : ∀ (b : Brk) (x r : Token) (rest' : List Token),
      t = lbr b → rest = x :: r :: rest' → False) :
    innerPass (t :: rest) = (t :: (innerPass rest).1, (innerPass rest).2) := by
  rcases rest with _ | ⟨x, _ | ⟨r, rest'⟩⟩
  · cases t <;> simp [innerPass]
  · cases t <;> simp [innerPass]
  · cases t with
    | lbr b => exact absurd rfl (fun h => hne b x r rest' h rfl)
    | num v => simp [innerPass]
    | op o => simp [innerPass]
    | rbr b => simp [innerPass]

lemma innerPass_false_eq : ∀ (t : List Token),
    (innerPass t).2 = false → (innerPass t).1 = t := by
  intro t
  induction t using innerPass.induct with
  | case1 b x r rest hc ih => simp [innerPass, hc]
  | case2 b x r rest hc ih =>
    simp only [innerPass, if_neg hc] at *
    intro h
    simp [ih h]
  | case3 t rest hne ih =>
    rw [innerPass_cons_generic t rest hne]
    intro h
    simp [ih h]
  | case4 => simp [innerPass]

lemma innerPass_length : ∀ (t : List Token),
    (innerPass t).1.length ≤ t.length ∧
    ((innerPass t).2 = true → (innerPass t).1.length + 2 ≤ t.length) := by
  intro t
  induction t using innerPass.induct with
  | case1 b x r rest hc ih =>
    simp only [innerPass, if_pos hc]
    have := ih.1
    constructor
    · simp at this ⊢; omega
    · intro _
      simp at this ⊢
      omega
  | case2 b x r rest hc ih =>
    simp only [innerPass, if_neg hc]
    have h1 := ih.1
    have h2 := ih.2
    constructor
    · simp at h1 ⊢; omega
    · intro h
      have := h2 h
      simp at this ⊢
      omega
  | case3 t rest hne ih =>
    rw [innerPass_cons_generic t rest hne]
    have h1 := ih.1
    have h2 := ih.2
    constructor
    · simp at h1 ⊢; omega
    · intro h
      have := h2 h
      simp at this ⊢
      omega
  | case4 => simp [innerPass]

lemma innerPass_noCollapse : ∀ (t : List Token), (innerPass t).2 = false →
    ∀ i b x r, t.get? i = some (lbr b) → t.get? (i+1) = some x →
      t.get? (i+2) = some r → r = rbr b → (isBracket x || isOp x) = true := by
  intro t
  induction t using innerPass.induct with
  | case1 b x r rest hc ih => simp [innerPass, hc]
  | case2 b x r rest hc ih =>
    simp only [innerPass, if_neg hc]
    intro hf i b0 x0 r0 h0 h1 h2 hr
    match i, h0, h1, h2 with
    | 0, h0, h1, h2 =>
      simp only [List.get?, Option.some.injEq, Token.lbr.injEq] at h0 h1 h2
      subst h0
      subst h1
      subst h2
      subst hr
      cases hbx : isBracket x <;> cases hox : isOp x <;> simp_all
    | (j+1), h0, h1, h2 =>
      exact ih hf j b0 x0 r0 h0 h1 h2 hr
  | case3 t rest hne ih =>
    rw [innerPass_cons_generic t rest hne]
    intro hf i b0 x0 r0 h0 h1 h2 hr
    match i, h0, h1, h2 with
    | 0, h0, h1, h2 =>
      simp only [List.get?, Option.some.injEq] at h0
      subst h0
      rcases rest with _ | ⟨x, _ | ⟨r, rest'⟩⟩
      · simp [List.get?] at h1
      · simp [List.get?] at h2
      · exact absurd rfl (fun h => hne b0 x r rest' h rfl)
    | (j+1), h0, h1, h2 =>
      exact ih hf j b0 x0 r0 h0 h1 h2 hr
  | case4 => intro _ i b0 x0 r0 h0 _ _ _; simp at h0

lemma outerLoop_fix : ∀ (fuel : Nat) (t : List Token), t.length < fuel →
    innerPass (outerLoop fuel t) = (outerLoop fuel t, false) := by
  intro fuel
  induction fuel with
  | zero => intro t h; omega
  | succ f ihf =>
    intro t h
    simp only [outerLoop]
    rcases hp : innerPass t with ⟨t2, ch⟩
    cases ch
    · have ht : t2 = t := by
        have := innerPass_false_eq t (by rw [hp])
        rw [hp] at this; exact this
      subst ht
      simpa using hp
    · have hlen : t2.length + 2 ≤ t.length := by
        have := (innerPass_length t).2 (by rw [hp])
        rw [hp] at this; exact this
      exact ihf t2 (by omega)

lemma simplify_fix (t : List Token) :
    innerPass (simplify_brackets t) = (simplify_brackets t, false) :=
  outerLoop_fix (t.length + 1) t (Nat.lt_succ_self _)

/-- **C8.** `simplify_brackets` is idempotent, and its output is a fixed
point containing no bracket pair of any family whose sole content is one
operand token. -/
theorem c8_simplify_brackets_idempotent :
    ∀ t : List Token,
      simplify_brackets (simplify_brackets t) = simplify_brackets t ∧
      singletonBracketFree (simplify_brackets t) = true := by
  intro t
  constructor
  · conv_lhs => rw [simplify_brackets]
    rw [outerLoop]
    rw [simplify_fix t]
  · have hfix := simplify_fix t
    rw [singletonBracketFree, List.all_eq_true]
    intro i _
    rcases h0 : (simplify_brackets t).get? i with _ | t0
    · simp
    · rcases h1 : (simplify_brackets t).get? (i+1) with _ | x
      · cases t0 <;> simp
      · rcases h2 : (simplify_brackets t).get? (i+2) with _ | r
        · cases t0 <;> simp
        · cases t0 with
          | lbr b =>
            simp only []
            by_cases hr : r = rbr b
            · have := innerPass_noCollapse (simplify_brackets t)
                (by rw [hfix]) i b x r h0 h1 h2 hr
              rcases Bool.or_eq_true_iff.mp this with hh | hh <;> simp [hh]
            · simp [hr]
          | num v => simp
          | op o => simp
          | rbr b => simp

/-!
## Concrete-input theorems
-/

/-- **C1.** The tokenizer shipped in `src/tokenizer.py` rejects the curly and
square bracket families with `ValueError` instead of producing bracket
tokens; only parentheses are tokenized.  (Its callers —
`graph_builder2.py` line 10 — import `OPEN_BRACKETS`/`BRACKET_PAIRS` from a
tokenizer module that does define three families, absent from `src/`.) -/
theorem c1_tokenizer_rejects_other_bracket_families :
    tokenize "\x7b2+3\x7d*5".data = none ∧
    tokenize "[2+3]*5".data = none ∧
    tokenize "(2+3)*5".data =
      some [['('], ['2'], ['+'], ['3'], [')'], ['*'], ['5']] := by
  decide

/-- **C2 counterexample.** Building `"(2+3)*5"` with node ceiling `N = 2`
finishes with 4 nodes: the ceiling is only checked before expanding a node,
so one expansion can overshoot it.  The claim "the finished graph contains at
most `N` nodes" is false. -/
theorem c2_counterexample_ceiling_overshoot :
    (buildGraph (fun k => k) 100 tokensDist (some 2)).map
      (fun g => (g.nodes.length, g.truncated)) = some (4, true) ∧ 2 < 4 := by
  constructor
  · decide
  · decide

/-- **C3 counterexample.** Two builds of the same input `"1+1"` under two
different uuid draws produce the same canonical node sequences but different
root ids: node ids come from the external uuid source, not from the canonical
expression text, so equal canonical strings in separate builds need not share
an id. -/
theorem c3_counterexample_ids_not_text_derived :
    (buildGraph (fun k => k) 10 tokensOnePlusOne none).map
      (fun g => (g.rootId, g.nodes.map (·.tokens))) =
      some (0, [tokensOnePlusOne, [num (nv 2)]]) ∧
    (buildGraph (fun k => k + 7) 10 tokensOnePlusOne none).map
      (fun g => (g.rootId, g.nodes.map (·.tokens))) =
      some (7, [tokensOnePlusOne, [num (nv 2)]]) ∧
    (0 : Nat) ≠ 7 := by
  refine ⟨by decide, by decide, by decide⟩

/-- **C6 counterexample.** In `"(2+3)/(4+5)"` the bracket `(2+3)` is the
dividend of an adjacent `/` and has two inner terms, yet no distribute
candidate (and no distribute action) is produced, because the divisor operand
is itself a bracket group (`find_distributable_brackets` skips that case). -/
theorem c6_counterexample_bracket_divisor :
    find_bracket_groups tokensDivBrackets false = [(0, 4), (6, 10)] ∧
    tokensDivBrackets.get? 5 = some (op .div) ∧
    (parse_bracket_terms (get_bracket_content tokensDivBrackets 0 4)).length = 2 ∧
    find_distributable_brackets tokensDivBrackets true = [] ∧
    (find_all_actions tokensDivBrackets).map
      (fun l => l.filter (fun a => a.actionType = .distribute)) = some [] := by
  refine ⟨by decide, by decide, by decide, by decide, by decide⟩

/-- **C7.** For the `expert` learner on `"2+3*4"`, the valid-action subset of
the initial state is exactly the single `*` evaluate action, and the
deterministic walk terminates in a terminal state with result `14`. -/
theorem c7_expert_walk :
    (extract_actions_from_tokens tokensPrec).map
      (fun all => expertLearner.valid_actions tokensPrec all) =
      some [⟨.evaluate, some .mul, some 3,
        .computeDesc (num (nv 3)) .mul (num (nv 4))⟩] ∧
    (walk_deterministic expertLearner 10 tokensPrec).map
      (fun steps => steps.map (fun s => (s.isFinal, s.result))) =
      some [(false, none), (false, none), (true, some (nv 14))] := by
  constructor
  · decide
  · decide

/-!
## Division-by-zero screening in action discovery (C5)
-/

lemma mem_addAction_of_mem {acc : List GAction} {a : GAction}
    (h : a ∈ acc) (ty : ActKind) (d : ADesc) (r : List Token) :
    a ∈ addAction acc ty d r := by
  rw [addAction]
  split
  · exact h
  · exact List.mem_append_left _ h

lemma addAction_covers (acc : List GAction) (ty : ActKind) (d : ADesc)
    (r : List Token) : ∃ a ∈ addAction acc ty d r, a.resultTokens = r := by
  rw [addAction]
  split
  · next hany =>
    rcases List.any_eq_true.mp hany with ⟨a, ha, hr⟩
    exact ⟨a, ha, by simpa using hr⟩
  · exact ⟨⟨ty, d, r⟩, List.mem_append_right _ (by simp), rfl⟩

lemma addAction_all {P : GAction → Bool} {acc : List GAction}
    (h : acc.all P = true) {ty : ActKind} {d : ADesc} {r : List Token}
    (hP : P ⟨ty, d, r⟩ = true) : (addAction acc ty d r).all P = true := by
  rw [addAction]
  split
  · exact h
  · simp only [List.all_append, h, Bool.true_and, List.all_cons, List.all_nil,
      Bool.and_true, hP]

lemma foldl_all_preserve {β : Type} {P : GAction → Bool}
    {f : List GAction → β → List GAction}
    (hf : ∀ acc x, acc.all P = true → (f acc x).all P = true) :
    ∀ (l : List β) (acc : List GAction), acc.all P = true →
      (l.foldl f acc).all P = true := by
  intro l
  induction l with
  | nil => intro acc h; exact h
  | cons x xs ih => intro acc h; exact ih (f acc x) (hf acc x h)

lemma foldl_mem_preserve {β : Type} {f : List GAction → β → List GAction}
    (hf : ∀ acc x a, a ∈ acc → a ∈ f acc x) :
    ∀ (l : List β) (acc : List GAction) (a : GAction), a ∈ acc →
      a ∈ l.foldl f acc := by
  intro l
  induction l with
  | nil => intro acc a h; exact h
  | cons x xs ih => intro acc a h; exact ih (f acc x) a (hf acc x a h)

lemma perform_div_right_nonzero {tokens : List Token} {i : Nat}
    {res : List Token} {v : Val}
    (hp : perform_operation tokens i .div = some res)
    (hr : tokens.get? (i + 1) = some (num v)) : v.num ≠ 0 := by
  rw [perform_operation] at hp
  split at hp
  all_goals
    simp only [bind, Option.bind_eq_some] at hp
    rcases hp with ⟨l, _, hp⟩
    rcases hp with ⟨r, hr2, hp⟩
    rcases hp with ⟨lv, _, hp⟩
    rcases hp with ⟨rv, hrv, hp⟩
    rcases hp with ⟨ev, hev, _⟩
    rw [hr] at hr2
    injection hr2 with hr2
    subst hr2
    simp only [toNum, Option.some.injEq] at hrv
    subst hrv
    simp only [evalOp] at hev
    by_contra hz
    simp [hz] at hev

lemma distStep_all {tokens : List Token} {acc : List GAction}
    (h : acc.all divZeroPred = true) (d : DistInfo) :
    (distActionStep tokens acc d).all divZeroPred = true := by
  rw [distActionStep]
  split
  · split
    · exact h
    · exact addAction_all h (by rfl)
  · exact h

lemma dropStep_all {tokens : List Token} {acc : List GAction}
    (h : acc.all divZeroPred = true) (g : Nat × Nat) :
    (dropActionStep tokens acc g).all divZeroPred = true := by
  rw [dropActionStep]
  exact addAction_all h (by rfl)

lemma evalStep_all {tokens : List Token} {acc : List GAction}
    (h : acc.all divZeroPred = true) (io : Nat × Op) :
    (evalActionStep tokens acc io).all divZeroPred = true := by
  rw [evalActionStep]
  split
  · next result hperf =>
    split
    · next l r hl hr =>
      apply addAction_all h
      rcases io with ⟨i, o⟩
      cases o with
      | div =>
        cases r with
        | num v =>
          simp only [divZeroPred]
          exact decide_eq_true (perform_div_right_nonzero hperf hr)
        | op o2 => rfl
        | lbr b => rfl
        | rbr b => rfl
      | add => rfl
      | sub => rfl
      | mul => rfl
      | pow => rfl
    · exact h
  · exact h

lemma evalStep_mem {tokens : List Token} {acc : List GAction} {a : GAction}
    (h : a ∈ acc) (io : Nat × Op) : a ∈ evalActionStep tokens acc io := by
  rw [evalActionStep]
  split
  · split
    · exact mem_addAction_of_mem h _ _ _
    · exact h
  · exact h

lemma perform_some_lookups {tokens : List Token} {i : Nat} {o : Op}
    {res : List Token} (hp : perform_operation tokens i o = some res) :
    ∃ l rt, (if i = 0 then tokens.getLast? else tokens.get? (i - 1)) = some l ∧
      tokens.get? (i + 1) = some rt := by
  rw [perform_operation] at hp
  split at hp
  · next hi =>
    simp only [bind, Option.bind_eq_some] at hp
    rcases hp with ⟨l, hl, hp⟩
    rcases hp with ⟨rt, hrt, _⟩
    exact ⟨l, rt, by rw [if_pos hi]; exact hl, hrt⟩
  · next hi =>
    simp only [bind, Option.bind_eq_some] at hp
    rcases hp with ⟨l, hl, hp⟩
    rcases hp with ⟨rt, hrt, _⟩
    exact ⟨l, rt, by rw [if_neg hi]; exact hl, hrt⟩

lemma evalFold_covers {tokens : List Token} :
    ∀ (ops : List (Nat × Op)) (acc : List GAction) (io : Nat × Op),
      io ∈ ops → ∀ r, perform_operation tokens io.1 io.2 = some r →
      ∃ a ∈ ops.foldl (evalActionStep tokens) acc, a.resultTokens = r := by
  intro ops
  induction ops with
  | nil => intro acc io h; simp at h
  | cons x xs ih =>
    intro acc io hio r hr
    rcases List.mem_cons.mp hio with rfl | hio
    · have hstep : ∃ a ∈ evalActionStep tokens acc io, a.resultTokens = r := by
        rw [evalActionStep, hr]
        rcases perform_some_lookups hr with ⟨l, rt, hl, hrt⟩
        simp only [hl, hrt]
        exact addAction_covers _ _ _ _
      rcases hstep with ⟨a, ha, har⟩
      exact ⟨a, foldl_mem_preserve (fun acc x a h => evalStep_mem h x) xs _ a ha, har⟩
    · exact ih (evalActionStep tokens acc x) io hio r hr

/-- **C5.** The available-action set of `_find_all_actions` never contains an
evaluate action whose operator is `/` and whose right operand is `0`
(`perform_operation` raises on it and the candidate is dropped), and the
failure is local: every other evaluatable position whose `perform_operation`
succeeds is still represented in the returned action set, so discovery
completes with the remaining actions. -/
theorem c5_division_by_zero_screened (tokens : List Token) :
    noDivZeroEvaluate ((find_all_actions tokens).getD []) = true ∧
    evalActionCovered tokens := by
  rcases hf : find_evaluatable_operations tokens with _ | ops
  · constructor
    · simp [find_all_actions, hf, noDivZeroEvaluate]
    · intro io hio r hr
      rw [hf] at hio
      simp at hio
  · have hfa : find_all_actions tokens = some (ops.foldl (evalActionStep tokens)
        ((find_bracket_groups tokens false).foldl (dropActionStep tokens)
          ((find_distributable_brackets tokens true).foldl (distActionStep tokens) []))) := by
      simp [find_all_actions, hf]
    constructor
    · rw [noDivZeroEvaluate, hfa]
      simp only [Option.getD_some]
      apply foldl_all_preserve (fun acc x h => evalStep_all h x)
      apply foldl_all_preserve (fun acc x h => dropStep_all h x)
      apply foldl_all_preserve (fun acc x h => distStep_all h x)
      rfl
    · intro io hio r hr
      rw [hf] at hio
      simp only [Option.getD_some] at hio
      rw [hfa]
      simp only [Option.getD_some]
      exact evalFold_covers ops _ io hio r hr

/-!
## Division distribution asymmetry (C6)
-/

lemma mem_fdb {tokens : List Token} {d : DistInfo} :
    d ∈ find_distributable_brackets tokens true ↔
    ∃ g ∈ find_bracket_groups tokens false,
      d ∈ (rightCandidate tokens g).toList ++ (leftCandidate tokens g).toList := by
  rw [find_distributable_brackets]
  rw [show (!true) = false from rfl]
  exact List.mem_flatMap

lemma rightCandidate_sound {tokens : List Token} {g : Nat × Nat} {d : DistInfo}
    (h : rightCandidate tokens g = some d) :
    d.opSide = .right ∧ d.bracketStart = g.1 ∧ d.bracketEnd = g.2 ∧
    (d.operator = .div →
      ∃ t, tokens.get? (g.2 + 2) = some t ∧ isOpenB t = false) := by
  rw [rightCandidate] at h
  split at h
  · next o hop =>
    split at h
    · next hlen =>
      split at h
      · next t ht =>
        split at h
        · exact absurd h (by simp)
        · next hskip =>
          injection h with h
          subst h
          refine ⟨rfl, rfl, rfl, ?_⟩
          intro hdiv
          simp only at hdiv
          subst hdiv
          simp at hskip
          exact ⟨t, by simpa using ht, hskip⟩
      · exact absurd h (by simp)
    · exact absurd h (by simp)
  · exact absurd h (by simp)

lemma leftCandidate_no_div {tokens : List Token} {g : Nat × Nat} {d : DistInfo}
    (h : leftCandidate tokens g = some d) : d.operator ≠ .div := by
  rw [leftCandidate] at h
  split at h
  · exact absurd h (by simp)
  · split at h
    · next o hop =>
      split at h
      · exact absurd h (by simp)
      · split at h
        · next t ht =>
          split at h
          · exact absurd h (by simp)
          · next hdiv =>
            injection h with h
            subst h
            simpa using hdiv
        · exact absurd h (by simp)
    · exact absurd h (by simp)

lemma leftCandidate_side {tokens : List Token} {g : Nat × Nat} {d : DistInfo}
    (h : leftCandidate tokens g = some d) : d.opSide = .left := by
  rw [leftCandidate] at h
  split at h
  · exact absurd h (by simp)
  · split at h
    · split at h
      · exact absurd h (by simp)
      · split at h
        · split at h
          · exact absurd h (by simp)
          · injection h with h; subst h; rfl
        · exact absurd h (by simp)
    · exact absurd h (by simp)

lemma rightCandidate_complete {tokens : List Token} {g : Nat × Nat} {t : Token}
    (hop : tokens.get? (g.2 + 1) = some (op .div))
    (hlen : g.2 + 1 + 1 < tokens.length)
    (ht : tokens.get? (g.2 + 2) = some t) (hto : isOpenB t = false) :
    rightCandidate tokens g = some ⟨g.1, g.2, .right, g.2 + 1, .div, [t]⟩ := by
  rw [rightCandidate, hop]
  dsimp only
  rw [if_pos hlen, ht]
  dsimp only
  rw [hto]
  simp

/-- **C6 (amended).** A distribute candidate with operator `/` is discovered
iff the bracket is the dividend (left of the `/`) and the divisor operand is
not itself a bracket group; no candidate is ever produced with the bracket as
divisor, and none when both sides of the `/` are bracket groups. -/
theorem c6_amended_division_distribution (tokens : List Token) :
    divDistributeSound tokens ∧ divDistributeComplete tokens := by
  constructor
  · intro d hd hdiv
    rcases mem_fdb.mp hd with ⟨g, hg, hmem⟩
    rcases List.mem_append.mp hmem with hmem | hmem
    · have hr := Option.mem_toList.mp hmem
      have := rightCandidate_sound hr
      rcases this.2.2.2 hdiv with ⟨t, ht, hto⟩
      exact ⟨this.1, t, by rw [this.2.2.1]; exact ht, hto⟩
    · have hl := Option.mem_toList.mp hmem
      exact absurd hdiv (leftCandidate_no_div hl)
  · intro g hg t hop hlen ht hto
    refine ⟨⟨g.1, g.2, .right, g.2 + 1, .div, [t]⟩, ?_, rfl, rfl, rfl, rfl⟩
    apply mem_fdb.mpr
    refine ⟨g, hg, ?_⟩
    apply List.mem_append_left
    rw [rightCandidate_complete hop hlen ht hto]
    simp

/-!
## The node ceiling of the graph builder (C2)
-/

lemma le_foldMax_init (f : GNode → Nat) : ∀ (l : List GNode) (a : Nat),
    a ≤ foldMax f a l := by
  intro l
  induction l with
  | nil => intro a; exact le_refl a
  | cons n rest ih =>
    intro a
    calc a ≤ max a (f n) := le_max_left _ _
      _ ≤ foldMax f (max a (f n)) rest := ih _
      _ = foldMax f a (n :: rest) := rfl

lemma foldMax_mem (f : GNode → Nat) : ∀ (l : List GNode) (a : Nat) (n : GNode),
    n ∈ l → f n ≤ foldMax f a l := by
  intro l
  induction l with
  | nil => intro a n h; simp at h
  | cons m rest ih =>
    intro a n h
    rcases List.mem_cons.mp h with rfl | h
    · calc f n ≤ max a (f n) := le_max_right _ _
        _ ≤ foldMax f (max a (f n)) rest := le_foldMax_init f rest _
        _ = foldMax f a (n :: rest) := rfl
    · exact ih _ n h

lemma foldMax_prefix_le (f : GNode → Nat) (a : Nat) (l ext : List GNode) :
    foldMax f a l ≤ foldMax f a (l ++ ext) := by
  rw [show foldMax f a (l ++ ext) = foldMax f (foldMax f a l) ext by
    simp [foldMax, List.foldl_append]]
  exact le_foldMax_init f ext _

lemma one_le_maxFanout (g : BState) : 1 ≤ maxFanout g :=
  le_foldMax_init _ g.nodes 1

lemma maxFanout_mono {st st' : BState} {ext : List GNode}
    (h : st'.nodes = st.nodes ++ ext) : maxFanout st ≤ maxFanout st' := by
  rw [maxFanout, maxFanout, h]
  exact foldMax_prefix_le _ 1 st.nodes ext

lemma actCount_le_maxFanout {g : BState} {cur : GNode} (h : cur ∈ g.nodes) :
    actCount cur.tokens ≤ maxFanout g := by
  rw [maxFanout]
  exact foldMax_mem (fun n => actCount n.tokens) g.nodes 1 cur h

lemma ceilingHit_false_le {st : BState} {N : Nat} (hm : st.maxNodes = some N)
    (hN : 1 ≤ N) (h : ceilingHit st = false) : st.nodes.length ≤ N - 1 := by
  rw [ceilingHit, hm] at h
  simp only [Bool.and_eq_false_iff, decide_eq_false_iff_not] at h
  rcases h with h | h
  · omega
  · omega

lemma ceilingHit_true_le {st : BState} {N : Nat} (hm : st.maxNodes = some N)
    (h : ceilingHit st = true) : N ≤ st.nodes.length := by
  rw [ceilingHit, hm] at h
  simp only [Bool.and_eq_true, decide_eq_true_eq] at h
  exact h.2

lemma stepAction_spec (supply : Nat → Nat) (curId : Nat)
    (p : BState × List GNode) (ty : ActKind) (d : ADesc) (nt : List Token) :
    ∃ ext, (stepAction supply curId p ty d nt).1.nodes = p.1.nodes ++ ext ∧
      ext.length ≤ 1 ∧
      (stepAction supply curId p ty d nt).1.maxNodes = p.1.maxNodes ∧
      (stepAction supply curId p ty d nt).1.truncated = p.1.truncated ∧
      (∀ n ∈ (stepAction supply curId p ty d nt).2,
        n ∈ p.2 ∨ n ∈ (stepAction supply curId p ty d nt).1.nodes) := by
  rw [stepAction]
  split
  · exact ⟨[], by simp, by simp, rfl, rfl, fun n h => Or.inl h⟩
  · split
    · exact ⟨[], by simp, by simp, rfl, rfl, fun n h => Or.inl h⟩
    · next node hmk =>
      refine ⟨[node], rfl, by simp, rfl, rfl, ?_⟩
      intro n h
      rcases List.mem_append.mp h with h | h
      · exact Or.inl h
      · exact Or.inr (List.mem_append_right _ h)

lemma foldSteps_spec (supply : Nat → Nat) (curId : Nat) :
    ∀ (acts : List GAction) (p : BState × List GNode),
    ∃ ext, (acts.foldl (fun p a => stepAction supply curId p a.actionType
        a.description a.resultTokens) p).1.nodes = p.1.nodes ++ ext ∧
      ext.length ≤ acts.length ∧
      (acts.foldl (fun p a => stepAction supply curId p a.actionType
        a.description a.resultTokens) p).1.maxNodes = p.1.maxNodes ∧
      (acts.foldl (fun p a => stepAction supply curId p a.actionType
        a.description a.resultTokens) p).1.truncated = p.1.truncated ∧
      (∀ n ∈ (acts.foldl (fun p a => stepAction supply curId p a.actionType
        a.description a.resultTokens) p).2,
        n ∈ p.2 ∨ n ∈ (acts.foldl (fun p a => stepAction supply curId p
          a.actionType a.description a.resultTokens) p).1.nodes) := by
  intro acts
  induction acts with
  | nil => intro p; exact ⟨[], by simp, by simp, rfl, rfl, fun n h => Or.inl h⟩
  | cons a rest ih =>
    intro p
    rcases stepAction_spec supply curId p a.actionType a.description
      a.resultTokens with ⟨e1, he1, hl1, hm1, ht1, hq1⟩
    rcases ih (stepAction supply curId p a.actionType a.description
      a.resultTokens) with ⟨e2, he2, hl2, hm2, ht2, hq2⟩
    refine ⟨e1 ++ e2, ?_, ?_, ?_, ?_, ?_⟩
    · simp only [List.foldl_cons] at *
      rw [he2, he1, List.append_assoc]
    · simp at hl1 hl2 ⊢; omega
    · simp only [List.foldl_cons] at *
      rw [hm2, hm1]
    · simp only [List.foldl_cons] at *
      rw [ht2, ht1]
    · simp only [List.foldl_cons] at *
      intro n h
      rcases hq2 n h with h2 | h2
      · rcases hq1 n h2 with h3 | h3
        · exact Or.inl h3
        · right
          rw [he2]
          exact List.mem_append_left _ h3
      · exact Or.inr h2

lemma fastStep_spec {supply : Nat → Nat} {st : BState} {cur : GNode}
    {p : BState × List GNode} (h : fastStep supply st cur = some p) :
    ∃ ext, p.1.nodes = st.nodes ++ ext ∧ ext.length ≤ 1 ∧
      p.1.maxNodes = st.maxNodes ∧ p.1.truncated = st.truncated ∧
      (∀ n ∈ p.2, n ∈ p.1.nodes) := by
  rw [fastStep] at h
  split at h
  · split at h
    · split at h
      · injection h with h
        subst h
        exact ⟨[], by simp, by simp, rfl, rfl, by simp⟩
      · split at h
        · exact absurd h (by simp)
        · injection h with h
          subst h
          exact ⟨[_], rfl, by simp, rfl, rfl, by simp⟩
    · exact absurd h (by simp)
  · exact absurd h (by simp)

lemma buildLoop_bound {supply : Nat → Nat} {N : Nat} (hN : 1 ≤ N) :
    ∀ (fuel : Nat) (st : BState) (queue : List GNode) (st' : BState)
      (q' : List GNode),
    st.maxNodes = some N →
    (∀ n ∈ queue, n ∈ st.nodes) →
    st.nodes.length ≤ N - 1 + maxFanout st →
    (st.truncated = true → N ≤ st.nodes.length) →
    buildLoop supply fuel st queue = some (st', q') →
    st'.nodes.length ≤ N - 1 + maxFanout st' ∧
    (q' ≠ [] → st'.truncated = true) ∧
    (st'.truncated = true → N ≤ st'.nodes.length) := by
  intro fuel
  induction fuel with
  | zero => intro st queue st' q' _ _ _ _ hrun; simp [buildLoop] at hrun
  | succ f ih =>
    intro st queue st' q' hm hq hbound htr hrun
    rcases queue with _ | ⟨cur, rest⟩
    · rw [buildLoop] at hrun
      injection hrun with hrun
      injection hrun with h1 h2
      subst h1
      subst h2
      exact ⟨hbound, by simp, htr⟩
    · rw [buildLoop] at hrun
      split at hrun
      · next hceil =>
        injection hrun with hrun
        injection hrun with h1 h2
        subst h1
        subst h2
        refine ⟨hbound, fun _ => rfl, fun _ => ceilingHit_true_le hm hceil⟩
      · next hceil =>
        split at hrun
        · exact ih st rest st' q' hm
            (fun n h => hq n (List.mem_cons_of_mem cur h)) hbound htr hrun
        · split at hrun
          · next p hfast =>
            rcases fastStep_spec hfast with ⟨ext, he, hl, hmx, htr2, hq2⟩
            have hlen : st.nodes.length ≤ N - 1 :=
              ceilingHit_false_le hm hN (by simpa using hceil)
            apply ih p.1 (rest ++ p.2) st' q' (by rw [hmx]; exact hm)
            · intro n h
              rcases List.mem_append.mp h with h | h
              · rw [he]
                exact List.mem_append_left _ (hq n (List.mem_cons_of_mem cur h))
              · exact hq2 n h
            · have : p.1.nodes.length = st.nodes.length + ext.length := by
                rw [he]; simp
              have hmf := one_le_maxFanout p.1
              omega
            · intro h
              rw [htr2] at h
              have := htr h
              have : st.nodes.length ≤ p.1.nodes.length := by
                rw [he]; simp
              omega
            · exact hrun
          · split at hrun
            · exact absurd hrun (by simp)
            · next acts hacts =>
              rcases foldSteps_spec supply cur.id acts (st, []) with
                ⟨ext, he, hl, hmx, htr2, hq2⟩
              have hlen : st.nodes.length ≤ N - 1 :=
                ceilingHit_false_le hm hN (by simpa using hceil)
              have hcount : acts.length = actCount cur.tokens := by
                rw [actCount, hacts]
                rfl
              have hcur : cur ∈ st.nodes := hq cur (List.mem_cons_self cur rest)
              apply ih _ _ st' q' (by rw [hmx]; exact hm)
              · intro n h
                rcases List.mem_append.mp h with h | h
                · rw [he]
                  exact List.mem_append_left _ (hq n (List.mem_cons_of_mem cur h))
                · rcases hq2 n h with h2 | h2
                  · simp at h2
                  · exact h2
              · have h1 : (acts.foldl (fun p a => stepAction supply cur.id p
                    a.actionType a.description a.resultTokens)
                    (st, [])).1.nodes.length = st.nodes.length + ext.length := by
                  rw [he]; simp
                have h2 : actCount cur.tokens ≤ maxFanout st :=
                  actCount_le_maxFanout hcur
                have h3 : maxFanout st ≤ maxFanout (acts.foldl
                    (fun p a => stepAction supply cur.id p a.actionType
                      a.description a.resultTokens) (st, [])).1 :=
                  maxFanout_mono he
                omega
              · intro h
                rw [htr2] at h
                have := htr h
                have : st.nodes.length ≤ (acts.foldl (fun p a =>
                    stepAction supply cur.id p a.actionType a.description
                      a.resultTokens) (st, [])).1.nodes.length := by
                  rw [he]; simp
                omega
              · exact hrun

/-- **C2 (amended).** For a build with node ceiling `N ≥ 1`: the ceiling is
checked only before expanding a node, so the finished graph holds at most
`N - 1` nodes plus the fan-out of one expansion
(`length ≤ N - 1 + maxFanout`); the truncated flag is true whenever
breadth-first exploration did not naturally exhaust the frontier; and a
truncated build reached at least `N` nodes. -/
theorem c2_amended_node_ceiling (supply : Nat → Nat) (fuel : Nat)
    (tokens : List Token) (N : Nat) (hN : 1 ≤ N) :
    C2Post (buildFull supply fuel tokens (some N)) N := by
  intro g q hres
  rw [buildFull] at hres
  split at hres
  · exact absurd hres (by simp)
  · next root hroot =>
    have h := buildLoop_bound hN fuel _ [root] g q rfl
      (by intro n hn; simpa using hn)
      (by
        have := one_le_maxFanout
          ⟨[root], [], [(tokens, root.id)], root.id, some N, false⟩
        simp only [List.length_singleton]
        omega)
      (by intro h; simp at h)
      hres
    refine ⟨h.1, ?_, h.2.2⟩
    intro htr
    by_contra hne
    rw [h.2.1 hne] at htr
    simp at htr

/-- Witness for the amended C2 at `"(2+3)*5"` with ceiling `2`. -/
theorem c2_amended_node_ceiling_witness :
    1 ≤ 2 ∧ C2Post (buildFull (fun k => k) 100 tokensDist (some 2)) 2 :=
  ⟨by decide, c2_amended_node_ceiling (fun k => k) 100 tokensDist 2 (by decide)⟩

/-!
## Node identity (C3)
-/

lemma mkNodeChecked_spec {id : Nat} {nt : List Token} {pid : Option Nat}
    {n : GNode} (h : mkNodeChecked id nt pid = some n) :
    n.id = id ∧ n.tokens = nt := by
  rw [mkNodeChecked] at h
  split at h
  · split at h
    · injection h with h
      subst h
      exact ⟨rfl, rfl⟩
    · exact absurd h (by simp)
  · injection h with h
    subst h
    exact ⟨rfl, rfl⟩

lemma seenLookup_none {seen : List (List Token × Nat)} {key : List Token}
    (h : seenLookup seen key = none) : ∀ p ∈ seen, p.1 ≠ key := by
  rw [seenLookup] at h
  simp only [Option.map_eq_none'] at h
  intro p hp
  have := List.find?_eq_none.mp h p hp
  simpa using this

lemma IdInv_extend {supply : Nat → Nat} {st : BState} {node : GNode}
    {nt : List Token} (h1 : st.nodes.map (·.id) =
      (List.range st.nodes.length).map supply)
    (h2 : st.seen = st.nodes.map (fun n => (n.tokens, n.id)))
    (h3 : (st.nodes.map (·.tokens)).Nodup)
    (hid : node.id = supply st.nodes.length) (hnt : node.tokens = nt)
    (hseen : seenLookup st.seen nt = none) :
    (st.nodes ++ [node]).map (·.id) =
      (List.range (st.nodes ++ [node]).length).map supply ∧
    st.seen ++ [(nt, node.id)] =
      (st.nodes ++ [node]).map (fun n => (n.tokens, n.id)) ∧
    ((st.nodes ++ [node]).map (·.tokens)).Nodup := by
  refine ⟨?_, ?_, ?_⟩
  · simp only [List.map_append, List.map_cons, List.map_nil,
      List.length_append, List.length_cons, List.length_nil]
    rw [h1, hid, List.range_succ]
    simp
  · simp only [List.map_append, List.map_cons, List.map_nil]
    rw [h2, hnt]
  · simp only [List.map_append, List.map_cons, List.map_nil]
    rw [List.nodup_append]
    refine ⟨h3, List.nodup_singleton _, ?_⟩
    intro x hx
    simp only [List.mem_singleton]
    intro hxeq
    subst hxeq
    rcases List.mem_map.mp hx with ⟨m, hm, hmx⟩
    have := seenLookup_none hseen (m.tokens, m.id)
      (by rw [h2]; exact List.mem_map_of_mem _ hm)
    rw [hnt] at hmx
    exact this hmx

lemma stepAction_IdInv {supply : Nat → Nat} {curId : Nat}
    {p : BState × List GNode} {ty : ActKind} {d : ADesc} {nt : List Token}
    (h : IdInv supply p.1) :
    IdInv supply (stepAction supply curId p ty d nt).1 := by
  obtain ⟨h1, h2, h3⟩ := h
  rcases hseen : seenLookup p.1.seen nt with _ | eid
  · rcases hmk : mkNodeChecked (supply p.1.nodes.length) nt (some curId)
      with _ | node
    · rw [stepAction, hseen, hmk]
      exact ⟨h1, h2, h3⟩
    · rw [stepAction, hseen, hmk]
      obtain ⟨hid, hnt⟩ := mkNodeChecked_spec hmk
      exact IdInv_extend h1 h2 h3 hid hnt hseen
  · rw [stepAction, hseen]
    exact ⟨h1, h2, h3⟩

lemma fastStep_IdInv {supply : Nat → Nat} {st : BState} {cur : GNode}
    {p : BState × List GNode} (hrun : fastStep supply st cur = some p)
    (h : IdInv supply st) : IdInv supply p.1 := by
  obtain ⟨h1, h2, h3⟩ := h
  rw [fastStep] at hrun
  split at hrun
  · split at hrun
    · next resTok hres =>
      rcases hseen : seenLookup st.seen [resTok] with _ | eid
      · rw [hseen] at hrun
        rcases hmk : mkNodeChecked (supply st.nodes.length) [resTok]
            (some cur.id) with _ | node
        · rw [hmk] at hrun
          exact absurd hrun (by simp)
        · rw [hmk] at hrun
          injection hrun with hrun
          subst hrun
          obtain ⟨hid, hnt⟩ := mkNodeChecked_spec hmk
          exact IdInv_extend h1 h2 h3 hid hnt hseen
      · rw [hseen] at hrun
        injection hrun with hrun
        subst hrun
        exact ⟨h1, h2, h3⟩
    · exact absurd hrun (by simp)
  · exact absurd hrun (by simp)

lemma foldSteps_IdInv {supply : Nat → Nat} {curId : Nat} :
    ∀ (acts : List GAction) (p : BState × List GNode), IdInv supply p.1 →
    IdInv supply (acts.foldl (fun p a => stepAction supply curId p
      a.actionType a.description a.resultTokens) p).1 := by
  intro acts
  induction acts with
  | nil => intro p h; exact h
  | cons a rest ih =>
    intro p h
    exact ih _ (stepAction_IdInv h)

lemma buildLoop_IdInv {supply : Nat → Nat} :
    ∀ (fuel : Nat) (st : BState) (queue : List GNode) (st' : BState)
      (q' : List GNode), IdInv supply st →
    buildLoop supply fuel st queue = some (st', q') → IdInv supply st' := by
  intro fuel
  induction fuel with
  | zero => intro st queue st' q' _ hrun; simp [buildLoop] at hrun
  | succ f ih =>
    intro st queue st' q' hinv hrun
    rcases queue with _ | ⟨cur, rest⟩
    · rw [buildLoop] at hrun
      injection hrun with hrun
      injection hrun with ha hb
      subst ha
      exact hinv
    · rw [buildLoop] at hrun
      split at hrun
      · injection hrun with hrun
        injection hrun with ha hb
        subst ha
        exact ⟨hinv.1, hinv.2.1, hinv.2.2⟩
      · split at hrun
        · exact ih st rest st' q' hinv hrun
        · split at hrun
          · next p hfast =>
            exact ih p.1 _ st' q' (fastStep_IdInv hfast hinv) hrun
          · split at hrun
            · exact absurd hrun (by simp)
            · next acts hacts =>
              exact ih _ _ st' q' (foldSteps_IdInv acts (st, []) hinv) hrun

/-- **C3 (amended).** Node ids come from the external uuid draw sequence,
not from canonical text; within a single build whose draws do not collide
(an injective supply), node ids are pairwise distinct, and canonical token
sequences are pairwise distinct — so inside one build equal canonical text
means the same node (hence the same id) and different canonical text means
different ids.  Across two builds no such determinism holds
(`c3_counterexample_ids_not_text_derived`). -/
theorem c3_amended_unique_ids (supply : Nat → Nat) (fuel : Nat)
    (tokens : List Token) (m : Option Nat)
    (hinj : Function.Injective supply) :
    C3Post (buildGraph supply fuel tokens m) := by
  intro g hres
  rw [buildGraph] at hres
  rcases Option.map_eq_some'.mp hres with ⟨pair, hpair, hg⟩
  subst hg
  rw [buildFull] at hpair
  split at hpair
  · exact absurd hpair (by simp)
  · next root hroot =>
    obtain ⟨hid, hnt⟩ := mkNodeChecked_spec hroot
    have hinv0 : IdInv supply ⟨[root], [], [(tokens, root.id)], root.id, m, false⟩ := by
      refine ⟨?_, ?_, ?_⟩
      · simp [hid, List.range_succ]
      · simp [hnt]
      · simp
    have hfinal := buildLoop_IdInv fuel _ [root] pair.1 pair.2 hinv0 hpair
    obtain ⟨h1, h2, h3⟩ := hfinal
    refine ⟨?_, h3⟩
    rw [h1]
    exact (List.nodup_range _).map hinj

/-- Witness for the amended C3 at `"1+1"` with the identity draw sequence. -/
theorem c3_amended_unique_ids_witness :
    Function.Injective (fun k : Nat => k) ∧
    C3Post (buildGraph (fun k => k) 10 tokensOnePlusOne none) :=
  ⟨fun _ _ h => h,
    c3_amended_unique_ids (fun k => k) 10 tokensOnePlusOne none
      (fun _ _ h => h)⟩

/-!
## The same-operator fast path versus stepwise evaluation (C4)
-/

lemma innerPass_eq_self_of_noBracket : ∀ (t : List Token),
    (∀ x ∈ t, isBracket x = false) → innerPass t = (t, false) := by
  intro t
  induction t using innerPass.induct with
  | case1 b x r rest hc ih =>
    intro h
    exact absurd (h (lbr b) (by simp)) (by simp [isBracket, isOpenB])
  | case2 b x r rest hc ih =>
    intro h
    exact absurd (h (lbr b) (by simp)) (by simp [isBracket, isOpenB])
  | case3 t rest hne ih =>
    intro h
    rw [innerPass_cons_generic t rest hne,
      ih (fun x hx => h x (List.mem_cons_of_mem t hx))]
  | case4 => intro _; simp [innerPass]

lemma simplify_eq_self_of_noBracket (t : List Token)
    (h : ∀ x ∈ t, isBracket x = false) : simplify_brackets t = t := by
  rw [simplify_brackets]
  simp only [outerLoop]
  rw [innerPass_eq_self_of_noBracket t h]

lemma chainTail_noBracket (o : Op) : ∀ (vs : List Val),
    ∀ x ∈ chainTail o vs, isBracket x = false := by
  intro vs
  induction vs with
  | nil => simp [chainTail]
  | cons w ws ih =>
    intro x hx
    simp only [chainTail, List.mem_cons] at hx
    rcases hx with rfl | rfl | hx
    · simp [isBracket, isOpenB, isCloseB]
    · simp [isBracket, isOpenB, isCloseB]
    · exact ih x hx

lemma chain_noBracket (v : Val) (o : Op) (vs : List Val) :
    ∀ x ∈ chain v o vs, isBracket x = false := by
  intro x hx
  simp only [chain, List.mem_cons] at hx
  rcases hx with rfl | hx
  · simp [isBracket, isOpenB, isCloseB]
  · exact chainTail_noBracket o vs x hx

lemma chain_numbers (o : Op) : ∀ (vs : List Val) (v : Val),
    collectNums ((chain v o vs).filter (fun t => t ≠ Token.op o)) =
      some (v :: vs) := by
  intro vs
  induction vs with
  | nil => intro v; simp [chain, chainTail, collectNums, toNum]
  | cons w ws ih =>
    intro v
    have h2 : (chain v o (w :: ws)).filter (fun t => t ≠ Token.op o) =
        num v :: (chain w o ws).filter (fun t => t ≠ Token.op o) := by
      show (num v :: Token.op o :: chain w o ws).filter
        (fun t => t ≠ Token.op o) = _
      simp [List.filter_cons]
    rw [h2]
    have h3 : collectNums
        (num v :: (chain w o ws).filter (fun t => t ≠ Token.op o)) =
        (collectNums ((chain w o ws).filter (fun t => t ≠ Token.op o))).map
          (v :: ·) := rfl
    rw [h3, ih w]
    rfl

lemma csr_chain (v : Val) (o : Op) (vs : List Val) :
    compute_same_operator_result (chain v o vs) o =
      (foldVals o v vs).map num := by
  simp only [compute_same_operator_result]
  rw [chain_numbers o vs v]
  rcases h : foldVals o v vs with _ | r <;> simp [Option.bind, h]

lemma perform_chain (v w : Val) (o : Op) (ws : List Val) :
    perform_operation (chain v o (w :: ws)) 1 o =
      (evalOp o v w).map (fun r => chain r o ws) := by
  rcases h : evalOp o v w with _ | r
  · simp [perform_operation, chain, chainTail, List.get?, toNum, h]
  · simp [perform_operation, chain, chainTail, List.get?, toNum, h]
    rw [show (Token.num r :: chainTail o ws) = chain r o ws from rfl]
    exact simplify_eq_self_of_noBracket _ (chain_noBracket r o ws)

lemma leftmost_chain (v w : Val) (o : Op) (ws : List Val) :
    leftmostOpIdx (chain v o (w :: ws)) 0 = some (1, o) := rfl

lemma isameGo_chainTail (o : Op) : ∀ (vs : List Val),
    isameGo (chainTail o vs) (some o) = (true, some o) := by
  intro vs
  induction vs with
  | nil => rfl
  | cons w ws ih =>
    simp [chainTail, isameGo, isBracket, isOpenB, isCloseB, ih]

lemma isame_chain (v : Val) (o : Op) (w : Val) (ws : List Val) :
    is_same_operator_expression (chain v o (w :: ws)) = (true, some o) := by
  simp [is_same_operator_expression, chain, chainTail, isameGo,
    isBracket, isOpenB, isCloseB, isameGo_chainTail]

lemma stepwise_chain (o : Op) : ∀ (vs : List Val) (v : Val) (fuel : Nat),
    vs.length < fuel →
    stepwise_leftmost_eval fuel (chain v o vs) =
      (foldVals o v vs).map (fun r => [num r]) := by
  intro vs
  induction vs with
  | nil =>
    intro v fuel hf
    match fuel, hf with
    | f + 1, _ => rfl
  | cons w ws ih =>
    intro v fuel hf
    match fuel, hf with
    | f + 1, hf =>
      have h1 : stepwise_leftmost_eval (f+1) (chain v o (w :: ws)) =
          (perform_operation (chain v o (w :: ws)) 1 o).bind
            (stepwise_leftmost_eval f) := by
        simp only [stepwise_leftmost_eval, leftmost_chain]
      rw [h1, perform_chain]
      rcases h : evalOp o v w with _ | r
      · simp [foldVals, h]
      · simp only [Option.map, Option.bind]
        rw [ih r f (by simp at hf ⊢; omega)]
        simp only [foldVals, h, Option.bind]
        rcases foldVals o r ws with _ | q <;> rfl

/-- **C4.** On a bracket-free token sequence with exactly one distinct
operator (a chain `v o w₁ o w₂ …`, recognised by
`is_same_operator_expression`), the single-step fold of the same-operator
fast path, `compute_same_operator_result`, returns exactly the terminal value
obtained by repeatedly evaluating the leftmost operator pair with
`perform_operation` — including for the non-associative `-`, `/` and `^`,
and with both sides failing together on a division by zero. -/
theorem c4_same_operator_fold (v : Val) (o : Op) (vs : List Val)
    (fuel : Nat) (hvs : vs ≠ []) (hfuel : vs.length < fuel) :
    is_same_operator_expression (chain v o vs) = (true, some o) ∧
    stepwise_leftmost_eval fuel (chain v o vs) =
      (compute_same_operator_result (chain v o vs) o).map (fun tk => [tk]) := by
  rcases vs with _ | ⟨w, ws⟩
  · exact absurd rfl hvs
  refine ⟨isame_chain v o w ws, ?_⟩
  rw [stepwise_chain o (w :: ws) v fuel hfuel, csr_chain]
  rcases h : foldVals o v (w :: ws) with _ | r <;> simp [h]

/-- Witness for C4 at the concrete chain `2 - 3 - 4`. -/
theorem c4_same_operator_fold_witness :
    ([nv 3, nv 4] : List Val) ≠ [] ∧ ([nv 3, nv 4] : List Val).length < 5 ∧
    (is_same_operator_expression (chain (nv 2) .sub [nv 3, nv 4]) =
      (true, some .sub) ∧
     stepwise_leftmost_eval 5 (chain (nv 2) .sub [nv 3, nv 4]) =
       (compute_same_operator_result (chain (nv 2) .sub [nv 3, nv 4]) .sub).map
         (fun tk => [tk])) :=
  ⟨by decide, by decide,
    c4_same_operator_fold (nv 2) .sub [nv 3, nv 4] 5 (by decide) (by decide)⟩

/-- **C10.** On `"5/0+1"` the `expert` learner's first valid action is the
unscreened `5 / 0` evaluate; executing it fails, and `walk_deterministic`
then crashes (`len(None)`) instead of ending in a recorded non-terminal,
non-stuck step — modelled as `none`. -/
theorem c10_walk_crashes_on_failed_action :
    (extract_actions_from_tokens tokensDivZero).map
      (fun all => (expertLearner.valid_actions tokensDivZero all).head?) =
      some (some ⟨.evaluate, some .div, some 1,
        .computeDesc (num (nv 5)) .div (num (nv 0))⟩) ∧
    execute_action tokensDivZero
      ⟨.evaluate, some .div, some 1,
        .computeDesc (num (nv 5)) .div (num (nv 0))⟩ = none ∧
    walk_deterministic expertLearner 10 tokensDivZero = none := by
  refine ⟨by decide, by decide, by decide⟩

end AlgTrust
